import Mathlib

/-!
Shallow embedding of the instance-tracking and tube-extraction core of the
S-SPHAR video generation scripts (`helper_classes.py`, `helper_functions.py`
and the tracking loop of `generate_video.py`).

Frame numbers and coordinates are Python ints, embedded as `Int`; instance
ids come from a counter and are embedded as `Nat`; masks are flattened
pixel grids of unsigned byte values, embedded as `List Nat`.
-/

/-- Python exception kinds that the embedded code can raise. -/
inductive PyErr where
  | typeError
  | indexError
  | valueError
deriving DecidableEq, Repr

/-- A Python value as far as the embedded error paths need it:
a string or an int. -/
inductive PyVal where
  | pyStr (s : String)
  | pyInt (n : Int)
deriving DecidableEq, Repr

/-- Python binary `+` on the embedded values: string + string concatenates,
int + int adds, and mixing a string with an int raises `TypeError`. -/
def pyAdd : PyVal → PyVal → Except PyErr PyVal
  | .pyStr a, .pyStr b => .ok (.pyStr (a ++ b))
  | .pyInt a, .pyInt b => .ok (.pyInt (a + b))
  | _, _ => .error .typeError

/-- `InstanceFrameData` from `helper_classes.py`: one frame of one instance,
with the frame number, the binary segmentation mask (flattened), the
axis-aligned bounding box corners and the rotated bounding box corners. -/
structure InstanceFrameData where
  frame_nr : Int
  segm_mask : List Nat
  segm_bbox : List (Int × Int)
  segm_rbox : List (Int × Int)
deriving DecidableEq, Repr

/-- `Instance` from `helper_classes.py`: a tracked identity with its id,
its label (`instance_of`) and its list of per-frame records. -/
structure TrInstance where
  instance_id : Nat
  instance_of : String
  frames : List InstanceFrameData
deriving DecidableEq, Repr

/-- `InstanceDB` from `helper_classes.py`: the list of live instances plus
the `_instanceid_cnt` counter backing `get_unused_instance_id`. -/
structure InstanceDB where
  instances : List TrInstance
  instanceid_cnt : Nat
deriving DecidableEq, Repr

/-- `Instance.get_frame_with_nr`: return the first frame record whose
`frame_nr` equals the argument.  When none matches, the source evaluates
`"could not find a frame with nr=" + frame_nr + ...` to build an
`IndexError` message; the first `+` concatenates a `str` with an `int`,
so that expression itself raises, and only if it produced a string would
the `IndexError` be raised. -/
def get_frame_with_nr (inst : TrInstance) (frame_nr : Int) :
    Except PyErr InstanceFrameData :=
  match inst.frames.find? (fun fr => fr.frame_nr == frame_nr) with
  | some fr => .ok fr
  | none =>
      match pyAdd (.pyStr "could not find a frame with nr=") (.pyInt frame_nr) with
      | .error e => .error e
      | .ok _msg => .error .indexError

/-- The per-instance contribution to `get_instance_ids_in_frame`: one copy
of the instance id for every frame record at `frame_nr`. -/
def idContrib (frame_nr : Int) (inst : TrInstance) : List Nat :=
  (inst.frames.filter (fun fr => fr.frame_nr == frame_nr)).map
    (fun _ => inst.instance_id)

/-- `InstanceDB.get_instance_ids_in_frame`: for every instance, for every
frame record at `frame_nr`, append the instance id. -/
def get_instance_ids_in_frame (db : InstanceDB) (frame_nr : Int) : List Nat :=
  db.instances.flatMap (idContrib frame_nr)

/-- `InstanceDB.get_instances_of_type_in_frame`: for every instance with
the given label, append the instance once per frame record at `frame_nr`. -/
def get_instances_of_type_in_frame (db : InstanceDB) (instance_of : String)
    (frame_nr : Int) : List TrInstance :=
  db.instances.flatMap (fun inst =>
    if inst.instance_of == instance_of then
      (inst.frames.filter (fun fr => fr.frame_nr == frame_nr)).map (fun _ => inst)
    else [])

/-- `InstanceDB.get_instances_in_frame`: every instance once per frame
record at `frame_nr`. -/
def get_instances_in_frame (db : InstanceDB) (frame_nr : Int) : List TrInstance :=
  db.instances.flatMap (fun inst =>
    (inst.frames.filter (fun fr => fr.frame_nr == frame_nr)).map (fun _ => inst))

/-- `InstanceDB.get_unused_instance_id`: increment the counter and return
its new value, together with the updated store. -/
def get_unused_instance_id (db : InstanceDB) : Nat × InstanceDB :=
  (db.instanceid_cnt + 1, { db with instanceid_cnt := db.instanceid_cnt + 1 })

/-- The loop body of `append_frame_to_instance`: append the new frame data
to every instance whose id matches. -/
def appendUpd (instance_id : Nat) (fd : InstanceFrameData)
    (inst : TrInstance) : TrInstance :=
  if inst.instance_id == instance_id then
    { inst with frames := inst.frames ++ [fd] }
  else inst

/-- `InstanceDB.append_frame_to_instance`: append `new_frame_data` to the
instance with the given id; when no instance matches, either create a new
instance from `instance_of` or raise `ValueError` when no label was passed.
Returns the store after the loop together with the raised error, if any. -/
def append_frame_to_instance (db : InstanceDB) (instance_id : Nat)
    (new_frame_data : InstanceFrameData) (instance_of : Option String) :
    InstanceDB × Option PyErr :=
  let found := db.instances.any (fun inst => inst.instance_id == instance_id)
  let insts1 := db.instances.map (appendUpd instance_id new_frame_data)
  if found then ({ db with instances := insts1 }, none)
  else
    match instance_of with
    | some lbl =>
        ({ db with instances :=
            insts1 ++ [⟨instance_id, lbl, [new_frame_data]⟩] }, none)
    | none => ({ db with instances := insts1 }, some .valueError)

/-- `InstanceDB.clean`: compute the ids present in `frame_nr`, return the
instances whose id is not among them, and keep only the others. -/
def clean (db : InstanceDB) (frame_nr : Int) : List TrInstance × InstanceDB :=
  let keep_ids := get_instance_ids_in_frame db frame_nr
  let delete_instances :=
    db.instances.filter (fun inst => !(keep_ids.contains inst.instance_id))
  let kept :=
    db.instances.filter (fun inst => keep_ids.contains inst.instance_id)
  (delete_instances, { db with instances := kept })

/-- `get_equal_white_pixel_count` from `helper_functions.py`:
`np.count_nonzero(np.bitwise_and(img1 == img2, img1))` — elementwise
equality as 0/1, bitwise and with the first image, count the nonzero
entries. -/
def get_equal_white_pixel_count (img1 img2 : List Nat) : Nat :=
  (((img1.zip img2).map
      (fun p => (if p.1 == p.2 then 1 else 0) &&& p.1)).filter
    (fun v => v != 0)).length

/-- Insert an (id, score) pair into a list already sorted by score in
descending order, after every entry with a strictly greater score: the
stable insertion step of `sorted(IOUs, key=lambda x: x[1], reverse=True)`. -/
def insertDesc (x : Nat × Nat) : List (Nat × Nat) → List (Nat × Nat)
  | [] => [x]
  | y :: ys => if y.2 > x.2 then y :: insertDesc x ys else x :: y :: ys

/-- Stable sort by score in descending order, as Python's
`sorted(IOUs, key=lambda x: x[1], reverse=True)`: entries with equal
scores keep their original relative order. -/
def sortDesc : List (Nat × Nat) → List (Nat × Nat)
  | [] => []
  | x :: xs => insertDesc x (sortDesc xs)

/-- The greatest score occurring in a list of (id, score) pairs
(0 when the list is empty). -/
def maxScore (l : List (Nat × Nat)) : Nat :=
  l.foldr (fun p m => max p.2 m) 0

/-- Map a fallible function over a list, stopping at the first raised
exception, as a Python list comprehension does. -/
def mapE (g : TrInstance → Except PyErr (Nat × Nat)) :
    List TrInstance → Except PyErr (List (Nat × Nat))
  | [] => .ok []
  | x :: xs =>
      match g x with
      | .error e => .error e
      | .ok y =>
          match mapE g xs with
          | .error e => .error e
          | .ok ys => .ok (y :: ys)

/-- A detection handed to the tracker for one frame: its label, its
segmentation mask and its two bounding boxes (one contour of
`generate_video.py`). -/
structure Detection where
  label : String
  mask : List Nat
  bbox : List (Int × Int)
  rbox : List (Int × Int)
deriving DecidableEq, Repr

/-- Score one previous-frame instance against a detection mask: look up the
instance's frame record at `f - 1` and count the equal white pixels, as in
the `IOUs` list comprehension of `generate_video.py`. -/
def scorePrev (f : Int) (mask : List Nat) (p : TrInstance) :
    Except PyErr (Nat × Nat) :=
  match get_frame_with_nr p (f - 1) with
  | .error e => .error e
  | .ok fr => .ok (p.instance_id, get_equal_white_pixel_count fr.segm_mask mask)

/-- The per-detection commit of the tracking loop in `generate_video.py`:
fetch the previous frame's instances of the same label; when there are
none, allocate a fresh id; otherwise score them, take the best by the
stable descending sort, continue its id when the best score is positive
and the id is not yet used in the current frame, and allocate a fresh id
otherwise; finally append the detection's frame data under that id. -/
def commitDetection (db : InstanceDB) (f : Int) (d : Detection) :
    Except PyErr InstanceDB :=
  let prev := get_instances_of_type_in_frame db d.label (f - 1)
  match prev with
  | [] =>
      let fresh := get_unused_instance_id db
      let r := append_frame_to_instance fresh.2 fresh.1
        ⟨f, d.mask, d.bbox, d.rbox⟩ (some d.label)
      match r.2 with
      | some e => .error e
      | none => .ok r.1
  | _ :: _ =>
      match mapE (scorePrev f d.mask) prev with
      | .error e => .error e
      | .ok ious =>
          match sortDesc ious with
          | [] => .error .indexError
          | best :: _ =>
              let cur := get_instance_ids_in_frame db f
              let st :=
                if decide (best.2 > 0) && !(cur.contains best.1) then
                  (best.1, db)
                else get_unused_instance_id db
              let r := append_frame_to_instance st.2 st.1
                ⟨f, d.mask, d.bbox, d.rbox⟩ (some d.label)
              match r.2 with
              | some e => .error e
              | none => .ok r.1

/-- Commit the detections of one frame in order, stopping at the first
raised exception. -/
def processFrameDetections (db : InstanceDB) (f : Int) :
    List Detection → Except PyErr InstanceDB
  | [] => .ok db
  | d :: ds =>
      match commitDetection db f d with
      | .error e => .error e
      | .ok db1 => processFrameDetections db1 f ds

/-- A running minimum that starts at `float("inf")`, embedded as `none`:
`v if v < m else m`. -/
def updMin (m : Option Int) (v : Int) : Option Int :=
  match m with
  | none => some v
  | some x => if v < x then some v else some x

/-- A running maximum: `v if v > m else m`. -/
def updMax (m v : Int) : Int :=
  if v > m then v else m

/-- `Tube` from `helper_classes.py`: label, id and the running bounds,
whose minima start at `float("inf")` (`none`) and whose maxima start
at 0. -/
structure Tube where
  label : String
  tube_id : Nat
  min_x : Option Int
  min_y : Option Int
  max_x : Int
  max_y : Int
  min_frame : Option Int
  max_frame : Int
deriving DecidableEq, Repr

/-- The inner loop of `Tube.create_from_instance`: fold one bounding-box
corner point into the spatial bounds. -/
def tubeStepPoint (t : Tube) (p : Int × Int) : Tube :=
  { t with
    min_x := updMin t.min_x p.1
    min_y := updMin t.min_y p.2
    max_x := updMax t.max_x p.1
    max_y := updMax t.max_y p.2 }

/-- The outer loop body of `Tube.create_from_instance`: fold one frame
record into the temporal bounds, then fold all its `segm_bbox` corners
into the spatial bounds. -/
def tubeStepFrame (t : Tube) (fr : InstanceFrameData) : Tube :=
  fr.segm_bbox.foldl tubeStepPoint
    { t with
      min_frame := updMin t.min_frame fr.frame_nr
      max_frame := updMax t.max_frame fr.frame_nr }

/-- `Tube.create_from_instance` (run by `Tube.__init__`): fold every frame
of the instance into the bounds, then copy the label and the id. -/
def createFromInstance (inst : TrInstance) : Tube :=
  let t := inst.frames.foldl tubeStepFrame
    ⟨"", 0, none, none, 0, 0, none, 0⟩
  { t with label := inst.instance_of, tube_id := inst.instance_id }

/-- The minimum-duration filter predicate of `generate_video.py`:
`tube.max_frame - tube.min_frame >= MIN_TUBE_LENGTH`.  A tube whose
`min_frame` is still `float("inf")` compares `-inf >= MIN_TUBE_LENGTH`,
which is false. -/
def keepTube (t : Tube) (minLen : Int) : Bool :=
  match t.min_frame with
  | some mf => decide (minLen ≤ t.max_frame - mf)
  | none => false

/-- The `tubeslist` comprehension of `generate_video.py`: keep the tubes
passing the minimum-duration filter. -/
def filterTubes (ts : List Tube) (minLen : Int) : List Tube :=
  ts.filter (fun t => keepTube t minLen)

/-- One observable operation on an `InstanceDB`, for stating properties of
arbitrary interleavings: an id allocation, a clean sweep, a frame append,
or a direct `append` of an instance. -/
inductive DBOp where
  | getId
  | cleanOp (frame_nr : Int)
  | appendFrame (instance_id : Nat) (fd : InstanceFrameData) (lbl : Option String)
  | appendInst (inst : TrInstance)
deriving Repr

/-- Run one operation, returning the new store and the ids this operation
returned to the caller. -/
def runOp (db : InstanceDB) : DBOp → InstanceDB × List Nat
  | .getId =>
      let r := get_unused_instance_id db
      (r.2, [r.1])
  | .cleanOp f => ((clean db f).2, [])
  | .appendFrame iid fd lbl => ((append_frame_to_instance db iid fd lbl).1, [])
  | .appendInst inst => ({ db with instances := db.instances ++ [inst] }, [])

/-- Run a sequence of operations, collecting every id returned by the
`getId` calls in order. -/
def runOps (db : InstanceDB) : List DBOp → InstanceDB × List Nat
  | [] => (db, [])
  | op :: ops =>
      let r := runOp db op
      let rest := runOps r.1 ops
      (rest.1, r.2 ++ rest.2)

/-- The ids of the live instances, in store order. -/
def instIds (db : InstanceDB) : List Nat :=
  db.instances.map TrInstance.instance_id

/-- Whether an instance has a frame record at the given frame number. -/
def hasFrameAt (inst : TrInstance) (f : Int) : Bool :=
  inst.frames.any (fun fr => fr.frame_nr == f)

/-- The frame numbers of an instance's frame records, in order. -/
def frameNrs (inst : TrInstance) : List Int :=
  inst.frames.map InstanceFrameData.frame_nr

/-- The x coordinates of every `segm_bbox` corner of every frame record. -/
def cornerXs (inst : TrInstance) : List Int :=
  inst.frames.flatMap (fun fr => fr.segm_bbox.map Prod.fst)

/-- The y coordinates of every `segm_bbox` corner of every frame record. -/
def cornerYs (inst : TrInstance) : List Int :=
  inst.frames.flatMap (fun fr => fr.segm_bbox.map Prod.snd)


/-! ## Claim C4: the matching score is a raw intersection count -/

/-- C4: for equally sized binary masks with entries 0 or 255, the score
computed by `get_equal_white_pixel_count` equals the number of pixel
positions that are nonzero in both masks — a raw intersection count with
no normalization by union or area. -/
theorem score_is_intersection_count (img1 img2 : List Nat)
    (_hlen : img1.length = img2.length)
    (h1 : ∀ v ∈ img1, v = 0 ∨ v = 255)
    (h2 : ∀ v ∈ img2, v = 0 ∨ v = 255) :
    get_equal_white_pixel_count img1 img2 =
      ((img1.zip img2).filter (fun p => p.1 != 0 && p.2 != 0)).length := by
  unfold get_equal_white_pixel_count
  rw [List.filter_map, List.length_map]
  congr 1
  apply List.filter_congr
  intro p hp
  obtain ⟨a, b⟩ := p
  obtain ⟨ha, hb⟩ := List.of_mem_zip hp
  rcases h1 a ha with rfl | rfl <;> rcases h2 b hb with rfl | rfl <;> decide

/-- Witness for C4 on the concrete masks `[0, 255, 255, 0]` and
`[255, 255, 0, 0]`, whose intersection has exactly one pixel. -/
theorem score_is_intersection_count_witness :
    get_equal_white_pixel_count [0, 255, 255, 0] [255, 255, 0, 0] =
      (([0, 255, 255, 0].zip [255, 255, 0, 0]).filter
        (fun p => p.1 != 0 && p.2 != 0)).length :=
  score_is_intersection_count [0, 255, 255, 0] [255, 255, 0, 0]
    (by decide) (by decide) (by decide)

/-! ## Claim C9: looking up a missing frame number -/

/-- C9: when an instance has no frame record with the requested frame
number, `get_frame_with_nr` does not raise the `IndexError` written in the
source: building the error message concatenates a string with the int
frame number, which raises `TypeError` first. -/
theorem missing_frame_lookup_raises_type_error (inst : TrInstance) (n : Int)
    (h : ∀ fr ∈ inst.frames, fr.frame_nr ≠ n) :
    get_frame_with_nr inst n = .error PyErr.typeError := by
  unfold get_frame_with_nr
  have hf : inst.frames.find? (fun fr => fr.frame_nr == n) = none := by
    apply List.find?_eq_none.mpr
    intro fr hfr
    simpa using h fr hfr
  rw [hf]
  rfl

/-- Witness for C9: the instance with id 1, label "a" and a single record
at frame 0, queried for frame 5. -/
theorem missing_frame_lookup_raises_type_error_witness :
    get_frame_with_nr ⟨1, "a", [⟨0, [], [], []⟩]⟩ 5 = .error PyErr.typeError :=
  missing_frame_lookup_raises_type_error ⟨1, "a", [⟨0, [], [], []⟩]⟩ 5 (by decide)

/-! ## Claim C7: the minimum-duration filter is inclusive -/

/-- C7: a finalized tube is kept by the duration filter exactly when
`max_frame - min_frame >= MIN_TUBE_LENGTH`; the boundary case
`max_frame - min_frame = MIN_TUBE_LENGTH` is included. -/
theorem tube_duration_filter (ts : List Tube) (minLen : Int)
    (_hL : 0 ≤ minLen) (t : Tube) (mf : Int) (hmf : t.min_frame = some mf) :
    (t ∈ filterTubes ts minLen ↔ (t ∈ ts ∧ minLen ≤ t.max_frame - mf)) ∧
    (t ∈ ts → t.max_frame - mf = minLen → t ∈ filterTubes ts minLen) := by
  have hk : keepTube t minLen = true ↔ minLen ≤ t.max_frame - mf := by
    simp [keepTube, hmf]
  constructor
  · rw [filterTubes, List.mem_filter, hk]
  · intro ht heq
    exact List.mem_filter.mpr ⟨ht, hk.mpr (by omega)⟩

/-- Witness for C7: a tube spanning frames 0 through 30 against the
minimum length 30 — exactly the boundary, and it is kept. -/
theorem tube_duration_filter_witness :
    ((⟨"a", 1, some 0, some 0, 9, 9, some 0, 30⟩ : Tube) ∈
        filterTubes [⟨"a", 1, some 0, some 0, 9, 9, some 0, 30⟩] 30 ↔
      ((⟨"a", 1, some 0, some 0, 9, 9, some 0, 30⟩ : Tube) ∈
          [(⟨"a", 1, some 0, some 0, 9, 9, some 0, 30⟩ : Tube)] ∧
        (30 : Int) ≤ (30 : Int) - 0)) ∧
    ((⟨"a", 1, some 0, some 0, 9, 9, some 0, 30⟩ : Tube) ∈
        [(⟨"a", 1, some 0, some 0, 9, 9, some 0, 30⟩ : Tube)] →
      (30 : Int) - 0 = 30 →
      (⟨"a", 1, some 0, some 0, 9, 9, some 0, 30⟩ : Tube) ∈
        filterTubes [⟨"a", 1, some 0, some 0, 9, 9, some 0, 30⟩] 30) :=
  tube_duration_filter [⟨"a", 1, some 0, some 0, 9, 9, some 0, 30⟩] 30
    (by decide) ⟨"a", 1, some 0, some 0, 9, 9, some 0, 30⟩ 0 rfl

/-! ## Claim C8: allocated ids are strictly increasing and never reused -/

/-- The counter after `append_frame_to_instance` is unchanged. -/
theorem append_frame_cnt (db : InstanceDB) (iid : Nat)
    (fd : InstanceFrameData) (lab : Option String) :
    (append_frame_to_instance db iid fd lab).1.instanceid_cnt =
      db.instanceid_cnt := by
  unfold append_frame_to_instance
  cases db.instances.any (fun inst => inst.instance_id == iid) <;>
    cases lab <;> simp

/-- One operation never decreases the counter, and every id it returns lies
strictly between the counter before and the counter after. -/
theorem runOp_cnt_spec (db : InstanceDB) (op : DBOp) :
    db.instanceid_cnt ≤ (runOp db op).1.instanceid_cnt ∧
    ∀ i ∈ (runOp db op).2,
      db.instanceid_cnt < i ∧ i ≤ (runOp db op).1.instanceid_cnt := by
  cases op with
  | getId => simp [runOp, get_unused_instance_id]
  | cleanOp f => simp [runOp, clean]
  | appendFrame iid fd lab => simp [runOp, append_frame_cnt]
  | appendInst inst => simp [runOp]

/-- Across a run, the returned ids are pairwise increasing and bounded
between the initial and final counters. -/
theorem runOps_cnt_spec (ops : List DBOp) : ∀ db : InstanceDB,
    (runOps db ops).2.Pairwise (· < ·) ∧
    db.instanceid_cnt ≤ (runOps db ops).1.instanceid_cnt ∧
    ∀ i ∈ (runOps db ops).2,
      db.instanceid_cnt < i ∧ i ≤ (runOps db ops).1.instanceid_cnt := by
  induction ops with
  | nil => intro db; simp [runOps]
  | cons op ops ih =>
      intro db
      obtain ⟨h1, h2⟩ := runOp_cnt_spec db op
      obtain ⟨ihp, ihc, ihb⟩ := ih (runOp db op).1
      refine ⟨?_, le_trans h1 ihc, ?_⟩
      · rw [runOps, List.pairwise_append]
        refine ⟨?_, ihp, ?_⟩
        · rcases hop : (runOp db op).2 with _ | ⟨a, rest⟩
          · exact List.Pairwise.nil
          · have : rest = [] := by
              cases op <;> simp [runOp] at hop
              exact hop.2
            subst this
            simp
        · intro a ha b hb
          have hab := (h2 a ha).2
          have hbb := (ihb b hb).1
          omega
      · intro i hi
        rw [runOps] at hi
        simp only [List.mem_append] at hi
        rcases hi with hi | hi
        · have := h2 i hi
          exact ⟨this.1, le_trans this.2 ihc⟩
        · have := ihb i hi
          exact ⟨lt_of_le_of_lt h1 this.1, this.2⟩

/-- C8: along any sequence of store operations, the ids returned by
`get_unused_instance_id` are positive, strictly increasing in the order
they were returned, and never repeated — not even after a `clean`
evicts the instance that carried one. -/
theorem allocated_ids_strictly_increasing (db : InstanceDB) (ops : List DBOp) :
    (runOps db ops).2.Pairwise (· < ·) ∧
    (runOps db ops).2.Nodup ∧
    ∀ i ∈ (runOps db ops).2, 0 < i := by
  obtain ⟨hp, _, hb⟩ := runOps_cnt_spec ops db
  refine ⟨hp, hp.imp (fun h => Nat.ne_of_lt h), fun i hi => ?_⟩
  have := (hb i hi).1
  omega

/-! ## Claim C5: best-candidate selection and its tie-break -/

/-- Membership is preserved by the insertion step of the stable sort. -/
theorem mem_insertDesc {y x : Nat × Nat} {l : List (Nat × Nat)} :
    y ∈ insertDesc x l ↔ y = x ∨ y ∈ l := by
  induction l with
  | nil => simp [insertDesc]
  | cons z zs ih =>
      rw [insertDesc]
      by_cases h : z.2 > x.2
      · rw [if_pos h]
        simp [ih]
        tauto
      · rw [if_neg h]
        simp

/-- Membership is preserved by the stable sort. -/
theorem mem_sortDesc {y : Nat × Nat} {l : List (Nat × Nat)} :
    y ∈ sortDesc l ↔ y ∈ l := by
  induction l with
  | nil => simp [sortDesc]
  | cons x xs ih => rw [sortDesc, mem_insertDesc, ih]; simp

/-- The stable sort of a nonempty list is nonempty. -/
theorem sortDesc_eq_nil_iff {l : List (Nat × Nat)} :
    sortDesc l = [] ↔ l = [] := by
  cases l with
  | nil => simp [sortDesc]
  | cons x xs =>
      simp only [sortDesc]
      constructor
      · intro h
        exfalso
        cases hs : sortDesc xs with
        | nil => rw [hs] at h; simp [insertDesc] at h
        | cons z zs =>
            rw [hs, insertDesc] at h
            by_cases hz : z.2 > x.2
            · rw [if_pos hz] at h; simp at h
            · rw [if_neg hz] at h; simp at h
      · intro h; exact absurd h (by simp)

/-- Every score in the list is at most `maxScore`. -/
theorem le_maxScore {l : List (Nat × Nat)} {p : Nat × Nat} (h : p ∈ l) :
    p.2 ≤ maxScore l := by
  induction l with
  | nil => cases h
  | cons x xs ih =>
      rcases List.mem_cons.mp h with rfl | h
      · exact le_max_left _ _
      · exact le_trans (ih h) (le_max_right _ _)

/-- The head of the stable descending sort attains the maximum score. -/
theorem sortDesc_head_score : ∀ {l : List (Nat × Nat)} {b : Nat × Nat}
    {t : List (Nat × Nat)}, sortDesc l = b :: t → b.2 = maxScore l := by
  intro l
  induction l with
  | nil => intro b t h; simp [sortDesc] at h
  | cons x xs ih =>
      intro b t h
      rw [sortDesc] at h
      have hmx : maxScore (x :: xs) = max x.2 (maxScore xs) := rfl
      cases hs : sortDesc xs with
      | nil =>
          have hxs : xs = [] := sortDesc_eq_nil_iff.mp hs
          subst hxs
          rw [hs] at h
          simp only [insertDesc] at h
          have hb2 : x.2 = b.2 := by rw [List.cons.injEq] at h; rw [h.1]
          have hms : maxScore ([] : List (Nat × Nat)) = 0 := rfl
          omega
      | cons z zs =>
          have hz2 : z.2 = maxScore xs := ih hs
          rw [hs, insertDesc] at h
          by_cases hgt : z.2 > x.2
          · rw [if_pos hgt] at h
            have hb2 : z.2 = b.2 := by rw [List.cons.injEq] at h; rw [h.1]
            omega
          · rw [if_neg hgt] at h
            have hb2 : x.2 = b.2 := by rw [List.cons.injEq] at h; rw [h.1]
            omega

/-- The head of the stable descending sort is the first element of the
original list attaining the maximum score. -/
theorem sortDesc_head_is_first_max : ∀ (l : List (Nat × Nat)),
    (sortDesc l).head? = l.find? (fun p => p.2 == maxScore l) := by
  intro l
  induction l with
  | nil => simp [sortDesc]
  | cons x xs ih =>
      rw [sortDesc]
      have hmx : maxScore (x :: xs) = max x.2 (maxScore xs) := rfl
      cases hs : sortDesc xs with
      | nil =>
          have hxs : xs = [] := sortDesc_eq_nil_iff.mp hs
          subst hxs
          have hpos : ((fun p : Nat × Nat => p.2 == maxScore [x]) x) = true := by
            have : maxScore [x] = max x.2 0 := rfl
            simp only [beq_iff_eq]
            omega
          rw [@List.find?_cons_of_pos _ (fun p : Nat × Nat => p.2 == maxScore [x]) x [] hpos]
          rfl
      | cons z zs =>
          have hz2 : z.2 = maxScore xs := sortDesc_head_score hs
          rw [insertDesc]
          by_cases hgt : z.2 > x.2
          · rw [if_pos hgt]
            have hneg : ¬ ((fun p : Nat × Nat => p.2 == maxScore (x :: xs)) x) = true := by
              simp only [beq_iff_eq]
              omega
            have hmax : maxScore (x :: xs) = maxScore xs := by omega
            rw [@List.find?_cons_of_neg _ (fun p : Nat × Nat => p.2 == maxScore (x :: xs)) x xs hneg,
              hmax, ← ih, hs]
            rfl
          · rw [if_neg hgt]
            have hpos : ((fun p : Nat × Nat => p.2 == maxScore (x :: xs)) x) = true := by
              simp only [beq_iff_eq]
              omega
            rw [@List.find?_cons_of_pos _ (fun p : Nat × Nat => p.2 == maxScore (x :: xs)) x xs hpos]
            rfl

/-- C5: for a nonempty candidate scoring list, the entry the tracker
selects — the head of the stable descending sort, the source's
`sorted(IOUs, key=..., reverse=True)[0]` — is a member of the list, its
score is the maximum, and it is the first member attaining that maximum
(ties broken by original order). -/
theorem best_candidate_first_max (l : List (Nat × Nat)) (h : l ≠ []) :
    ∃ b t, sortDesc l = b :: t ∧ b ∈ l ∧ (∀ p ∈ l, p.2 ≤ b.2) ∧
      l.find? (fun p => p.2 == maxScore l) = some b := by
  cases hs : sortDesc l with
  | nil => exact absurd (sortDesc_eq_nil_iff.mp hs) h
  | cons b t =>
      refine ⟨b, t, rfl, ?_, ?_, ?_⟩
      · exact mem_sortDesc.mp (hs ▸ List.mem_cons_self b t)
      · intro p hp
        rw [sortDesc_head_score hs]
        exact le_maxScore hp
      · rw [← sortDesc_head_is_first_max, hs]
        rfl

/-- Witness for C5: two candidates tie at score 10 ahead of a third with
score 1; the first of the tied pair is selected. -/
theorem best_candidate_first_max_witness :
    ∃ b t, sortDesc [(3, 10), (4, 10), (2, 1)] = b :: t ∧
      b ∈ [(3, 10), (4, 10), (2, 1)] ∧
      (∀ p ∈ [(3, 10), (4, 10), (2, 1)], p.2 ≤ b.2) ∧
      [(3, 10), (4, 10), (2, 1)].find?
        (fun p => p.2 == maxScore [(3, 10), (4, 10), (2, 1)]) = some b :=
  best_candidate_first_max [(3, 10), (4, 10), (2, 1)] (by decide)

/-! ## Store membership lemmas -/

/-- `contains` on id lists agrees with membership. -/
theorem contains_iff_mem_nat {l : List Nat} {x : Nat} :
    l.contains x = true ↔ x ∈ l := by
  simp

/-- Membership in one instance's contribution to the id list of a frame. -/
theorem mem_idContrib {x : Nat} {f : Int} {inst : TrInstance} :
    x ∈ idContrib f inst ↔ x = inst.instance_id ∧ hasFrameAt inst f = true := by
  simp only [idContrib, hasFrameAt, List.mem_map, List.mem_filter,
    List.any_eq_true]
  constructor
  · rintro ⟨fr, ⟨hfr, hq⟩, rfl⟩
    exact ⟨rfl, fr, hfr, hq⟩
  · rintro ⟨rfl, fr, hfr, hq⟩
    exact ⟨fr, ⟨hfr, hq⟩, rfl⟩

/-- Membership in `get_instance_ids_in_frame`: the id of some live
instance holding a record at that frame. -/
theorem mem_ids_in_frame {db : InstanceDB} {f : Int} {x : Nat} :
    x ∈ get_instance_ids_in_frame db f ↔
      ∃ i ∈ db.instances, i.instance_id = x ∧ hasFrameAt i f = true := by
  simp only [get_instance_ids_in_frame, List.mem_flatMap, mem_idContrib]
  constructor
  · rintro ⟨i, hi, rfl, hf⟩
    exact ⟨i, hi, rfl, hf⟩
  · rintro ⟨i, hi, rfl, hf⟩
    exact ⟨i, hi, rfl, hf⟩

/-- Every id reported for a frame is the id of a live instance. -/
theorem ids_in_frame_sub_instIds {db : InstanceDB} {f : Int} {x : Nat}
    (h : x ∈ get_instance_ids_in_frame db f) : x ∈ instIds db := by
  obtain ⟨i, hi, rfl, -⟩ := mem_ids_in_frame.mp h
  simp only [instIds]
  exact List.mem_map_of_mem _ hi

/-- With pairwise-distinct ids, the per-instance membership test of
`clean` coincides with having a frame record at the frame. -/
theorem contains_keep_ids {db : InstanceDB} {f : Int}
    (hids : (instIds db).Nodup) {i : TrInstance} (hi : i ∈ db.instances) :
    (get_instance_ids_in_frame db f).contains i.instance_id = hasFrameAt i f := by
  by_cases h : hasFrameAt i f = true
  · rw [h]
    exact contains_iff_mem_nat.mpr (mem_ids_in_frame.mpr ⟨i, hi, rfl, h⟩)
  · rw [Bool.not_eq_true] at h
    rw [h]
    rw [Bool.eq_false_iff]
    intro hc
    obtain ⟨j, hj, hjx, hjf⟩ := mem_ids_in_frame.mp (contains_iff_mem_nat.mp hc)
    have : j = i :=
      List.inj_on_of_nodup_map hids hj hi hjx
    rw [this] at hjf
    rw [hjf] at h
    cases h

/-! ## Claim C1: clean partitions the live set by presence in the frame -/

/-- C1: with pairwise-distinct live ids (the store invariant), `clean f`
returns exactly the live instances without a frame record at `f`, keeps
exactly those with one, and when `f` exceeds every recorded frame number
it evicts everything and leaves the store empty. -/
theorem clean_partitions_by_frame (db : InstanceDB) (f : Int)
    (hids : (instIds db).Nodup) :
    (clean db f).1 = db.instances.filter (fun i => !(hasFrameAt i f)) ∧
    ((clean db f).2).instances = db.instances.filter (fun i => hasFrameAt i f) ∧
    ((∀ i ∈ db.instances, ∀ fr ∈ i.frames, fr.frame_nr < f) →
      ((clean db f).2).instances = [] ∧ (clean db f).1 = db.instances) := by
  have hdel : (clean db f).1 =
      db.instances.filter (fun i => !(hasFrameAt i f)) := by
    simp only [clean]
    apply List.filter_congr
    intro i hi
    rw [contains_keep_ids hids hi]
  have hkeep : ((clean db f).2).instances =
      db.instances.filter (fun i => hasFrameAt i f) := by
    simp only [clean]
    apply List.filter_congr
    intro i hi
    rw [contains_keep_ids hids hi]
  refine ⟨hdel, hkeep, fun hall => ?_⟩
  have hnone : ∀ i ∈ db.instances, hasFrameAt i f = false := by
    intro i hi
    rw [hasFrameAt, List.any_eq_false]
    intro fr hfr
    have := hall i hi fr hfr
    simp only [beq_iff_eq]
    omega
  constructor
  · rw [hkeep, List.filter_eq_nil_iff]
    intro i hi
    rw [hnone i hi]
    simp
  · rw [hdel]
    rw [List.filter_eq_self]
    intro i hi
    rw [hnone i hi]
    rfl

/-- Witness for C1: a store holding instance 1 (last seen at frame 0) and
instance 2 (present at frames 0 and 1), cleaned at frame 1. -/
theorem clean_partitions_by_frame_witness :
    (clean ⟨[⟨1, "a", [⟨0, [], [], []⟩]⟩,
             ⟨2, "b", [⟨0, [], [], []⟩, ⟨1, [], [], []⟩]⟩], 5⟩ 1).1 =
      [⟨1, "a", [⟨0, [], [], []⟩]⟩,
       ⟨2, "b", [⟨0, [], [], []⟩, ⟨1, [], [], []⟩]⟩].filter
        (fun i => !(hasFrameAt i 1)) ∧
    ((clean ⟨[⟨1, "a", [⟨0, [], [], []⟩]⟩,
              ⟨2, "b", [⟨0, [], [], []⟩, ⟨1, [], [], []⟩]⟩], 5⟩ 1).2).instances =
      [⟨1, "a", [⟨0, [], [], []⟩]⟩,
       ⟨2, "b", [⟨0, [], [], []⟩, ⟨1, [], [], []⟩]⟩].filter
        (fun i => hasFrameAt i 1) ∧
    ((∀ i ∈ ([⟨1, "a", [⟨0, [], [], []⟩]⟩,
              ⟨2, "b", [⟨0, [], [], []⟩, ⟨1, [], [], []⟩]⟩] : List TrInstance),
        ∀ fr ∈ i.frames, fr.frame_nr < 1) →
      ((clean ⟨[⟨1, "a", [⟨0, [], [], []⟩]⟩,
                ⟨2, "b", [⟨0, [], [], []⟩, ⟨1, [], [], []⟩]⟩], 5⟩ 1).2).instances = [] ∧
      (clean ⟨[⟨1, "a", [⟨0, [], [], []⟩]⟩,
               ⟨2, "b", [⟨0, [], [], []⟩, ⟨1, [], [], []⟩]⟩], 5⟩ 1).1 =
        [⟨1, "a", [⟨0, [], [], []⟩]⟩,
         ⟨2, "b", [⟨0, [], [], []⟩, ⟨1, [], [], []⟩]⟩]) :=
  clean_partitions_by_frame
    ⟨[⟨1, "a", [⟨0, [], [], []⟩]⟩,
      ⟨2, "b", [⟨0, [], [], []⟩, ⟨1, [], [], []⟩]⟩], 5⟩ 1 (by decide)

/-! ## Claims C2 and C10: the append contract -/

/-- The loop of `append_frame_to_instance` leaves a list untouched when no
element's id matches. -/
theorem map_appendUpd_id {l : List TrInstance} {iid : Nat}
    {fd : InstanceFrameData}
    (h : ∀ j ∈ l, (j.instance_id == iid) = false) :
    l.map (appendUpd iid fd) = l := by
  have hpt : ∀ a ∈ l, appendUpd iid fd a = id a := by
    intro a ha
    unfold appendUpd
    rw [h a ha]
    rfl
  rw [List.map_congr_left hpt, List.map_id]

/-- With pairwise-distinct live ids, a store containing the id splits as
one matching instance between two runs of non-matching ones. -/
theorem found_split {db : InstanceDB} {iid : Nat}
    (hids : (instIds db).Nodup) (h : iid ∈ instIds db) :
    ∃ l1 i l2, db.instances = l1 ++ i :: l2 ∧ i.instance_id = iid ∧
      (∀ j ∈ l1, (j.instance_id == iid) = false) ∧
      (∀ j ∈ l2, (j.instance_id == iid) = false) := by
  simp only [instIds, List.mem_map] at h
  obtain ⟨i, hi, hid⟩ := h
  obtain ⟨l1, l2, heq⟩ := List.append_of_mem hi
  have hids' := hids
  rw [instIds, heq, List.map_append, List.map_cons] at hids'
  have hmid := List.nodup_middle.mp hids'
  rw [List.nodup_cons, List.mem_append] at hmid
  have hnot := hmid.1
  refine ⟨l1, i, l2, heq, hid, ?_, ?_⟩
  · intro j hj
    rw [beq_eq_false_iff_ne]
    intro hc
    apply hnot
    left
    rw [hid, ← hc]
    exact List.mem_map_of_mem _ hj
  · intro j hj
    rw [beq_eq_false_iff_ne]
    intro hc
    apply hnot
    right
    rw [hid, ← hc]
    exact List.mem_map_of_mem _ hj

/-- When the id is live, `append_frame_to_instance` appends the record to
exactly the matching instance, raises nothing, and the result does not
depend on the label argument. -/
theorem append_found {db : InstanceDB} {iid : Nat} {fd : InstanceFrameData}
    (lab : Option String) (hids : (instIds db).Nodup)
    (hmem : iid ∈ instIds db) :
    ∃ l1 i l2, db.instances = l1 ++ i :: l2 ∧ i.instance_id = iid ∧
      (∀ j ∈ l1, (j.instance_id == iid) = false) ∧
      (∀ j ∈ l2, (j.instance_id == iid) = false) ∧
      append_frame_to_instance db iid fd lab =
        ({ db with instances :=
            l1 ++ { i with frames := i.frames ++ [fd] } :: l2 }, none) := by
  obtain ⟨l1, i, l2, heq, hid, h1, h2⟩ := found_split hids hmem
  have hfound : db.instances.any (fun inst => inst.instance_id == iid) = true := by
    rw [List.any_eq_true]
    refine ⟨i, ?_, by simp [hid]⟩
    rw [heq]
    exact List.mem_append_right _ (List.mem_cons_self _ _)
  refine ⟨l1, i, l2, heq, hid, h1, h2, ?_⟩
  simp only [append_frame_to_instance, hfound, if_true]
  rw [heq, List.map_append, List.map_cons, map_appendUpd_id h1,
    map_appendUpd_id h2]
  have hupd : appendUpd iid fd i = { i with frames := i.frames ++ [fd] } := by
    unfold appendUpd
    rw [hid]
    simp
  rw [hupd]

/-- When the id is not live, `append_frame_to_instance` either creates a
new instance at the end of the store (when a label was passed) or raises
`ValueError` leaving the store unchanged. -/
theorem append_not_found {db : InstanceDB} {iid : Nat}
    {fd : InstanceFrameData} (hmem : iid ∉ instIds db) :
    (∀ lbl, append_frame_to_instance db iid fd (some lbl) =
      ({ db with instances := db.instances ++ [⟨iid, lbl, [fd]⟩] }, none)) ∧
    append_frame_to_instance db iid fd none = (db, some PyErr.valueError) := by
  have hall : ∀ j ∈ db.instances, (j.instance_id == iid) = false := by
    intro j hj
    rw [beq_eq_false_iff_ne]
    intro hc
    exact hmem (hc ▸ List.mem_map_of_mem TrInstance.instance_id hj)
  have hfound : db.instances.any (fun inst => inst.instance_id == iid) = false := by
    rw [List.any_eq_false]
    intro j hj
    rw [hall j hj]
    simp
  have hmap : db.instances.map (appendUpd iid fd) = db.instances :=
    map_appendUpd_id hall
  constructor
  · intro lbl
    simp [append_frame_to_instance, hfound, hmap]
  · simp [append_frame_to_instance, hfound, hmap]

/-- C2: `append_frame_to_instance` appends the record to the live instance
with the id (ignoring the label argument), creates a fresh single-frame
instance from the label when the id is not live, and raises the
invalid-input `ValueError` exactly when the id is not live and no label
was supplied — leaving the store unchanged in that case. -/
theorem append_frame_to_instance_contract (db : InstanceDB) (iid : Nat)
    (fd : InstanceFrameData) (lab : Option String)
    (hids : (instIds db).Nodup) :
    (iid ∈ instIds db →
      ∃ l1 i l2, db.instances = l1 ++ i :: l2 ∧ i.instance_id = iid ∧
        append_frame_to_instance db iid fd lab =
          ({ db with instances :=
              l1 ++ { i with frames := i.frames ++ [fd] } :: l2 }, none)) ∧
    (iid ∉ instIds db → ∀ lbl, lab = some lbl →
      append_frame_to_instance db iid fd lab =
        ({ db with instances := db.instances ++ [⟨iid, lbl, [fd]⟩] }, none)) ∧
    ((append_frame_to_instance db iid fd lab).2 ≠ none ↔
      iid ∉ instIds db ∧ lab = none) ∧
    (iid ∉ instIds db → lab = none →
      append_frame_to_instance db iid fd lab = (db, some PyErr.valueError)) := by
  refine ⟨?_, ?_, ?_, ?_⟩
  · intro hmem
    obtain ⟨l1, i, l2, heq, hid, -, -, happ⟩ := append_found lab hids hmem
    exact ⟨l1, i, l2, heq, hid, happ⟩
  · intro hmem lbl hlbl
    rw [hlbl]
    exact (append_not_found hmem).1 lbl
  · constructor
    · intro herr
      by_cases hmem : iid ∈ instIds db
      · obtain ⟨u1, u2, u3, u4, u5, u6, u7, happ⟩ := append_found lab hids hmem
        rw [happ] at herr
        simp at herr
      · refine ⟨hmem, ?_⟩
        cases hlab : lab with
        | none => rfl
        | some lbl =>
            rw [hlab] at herr
            rw [(append_not_found hmem).1 lbl] at herr
            simp at herr
    · rintro ⟨hmem, rfl⟩
      rw [(append_not_found hmem).2]
      simp
  · intro hmem hlab
    rw [hlab]
    exact (append_not_found hmem).2

/-- Witness for C2: the one-instance store {id 1, label "a"} with a fresh
record appended under id 1 and the (ignored) label "b". -/
theorem append_frame_to_instance_contract_witness :
    ((1 : Nat) ∈ instIds ⟨[⟨1, "a", [⟨0, [], [], []⟩]⟩], 1⟩ →
      ∃ l1 i l2, (⟨[⟨1, "a", [⟨0, [], [], []⟩]⟩], 1⟩ : InstanceDB).instances =
          l1 ++ i :: l2 ∧ i.instance_id = 1 ∧
        append_frame_to_instance ⟨[⟨1, "a", [⟨0, [], [], []⟩]⟩], 1⟩ 1
            ⟨1, [], [], []⟩ (some "b") =
          ({ (⟨[⟨1, "a", [⟨0, [], [], []⟩]⟩], 1⟩ : InstanceDB) with instances :=
              l1 ++ { i with frames := i.frames ++ [⟨1, [], [], []⟩] } :: l2 },
            none)) ∧
    ((1 : Nat) ∉ instIds ⟨[⟨1, "a", [⟨0, [], [], []⟩]⟩], 1⟩ →
      ∀ lbl, (some "b" : Option String) = some lbl →
      append_frame_to_instance ⟨[⟨1, "a", [⟨0, [], [], []⟩]⟩], 1⟩ 1
          ⟨1, [], [], []⟩ (some "b") =
        ({ (⟨[⟨1, "a", [⟨0, [], [], []⟩]⟩], 1⟩ : InstanceDB) with instances :=
            (⟨[⟨1, "a", [⟨0, [], [], []⟩]⟩], 1⟩ : InstanceDB).instances ++
              [⟨1, lbl, [⟨1, [], [], []⟩]⟩] }, none)) ∧
    ((append_frame_to_instance ⟨[⟨1, "a", [⟨0, [], [], []⟩]⟩], 1⟩ 1
        ⟨1, [], [], []⟩ (some "b")).2 ≠ none ↔
      (1 : Nat) ∉ instIds ⟨[⟨1, "a", [⟨0, [], [], []⟩]⟩], 1⟩ ∧
        (some "b" : Option String) = none) ∧
    ((1 : Nat) ∉ instIds ⟨[⟨1, "a", [⟨0, [], [], []⟩]⟩], 1⟩ →
      (some "b" : Option String) = none →
      append_frame_to_instance ⟨[⟨1, "a", [⟨0, [], [], []⟩]⟩], 1⟩ 1
          ⟨1, [], [], []⟩ (some "b") =
        (⟨[⟨1, "a", [⟨0, [], [], []⟩]⟩], 1⟩, some PyErr.valueError)) :=
  append_frame_to_instance_contract ⟨[⟨1, "a", [⟨0, [], [], []⟩]⟩], 1⟩ 1
    ⟨1, [], [], []⟩ (some "b") (by decide)

/-- C10: when the id is live, `append_frame_to_instance` never checks the
label: any label argument (matching, mismatching or absent) is silently
accepted, the record is appended, and every instance keeps its id and its
original label. -/
theorem append_label_never_checked (db : InstanceDB) (iid : Nat)
    (fd : InstanceFrameData) (lab : Option String)
    (h : db.instances.any (fun inst => inst.instance_id == iid) = true) :
    (append_frame_to_instance db iid fd lab).2 = none ∧
    append_frame_to_instance db iid fd lab =
      append_frame_to_instance db iid fd none ∧
    (append_frame_to_instance db iid fd lab).1.instances.map
        (fun i => (i.instance_id, i.instance_of)) =
      db.instances.map (fun i => (i.instance_id, i.instance_of)) ∧
    (append_frame_to_instance db iid fd lab).1.instances.map
        TrInstance.frames =
      db.instances.map (fun i =>
        if i.instance_id == iid then i.frames ++ [fd] else i.frames) := by
  have hred : append_frame_to_instance db iid fd lab =
      ({ db with instances := db.instances.map (appendUpd iid fd) }, none) := by
    simp only [append_frame_to_instance, h, if_true]
  have hred0 : append_frame_to_instance db iid fd none =
      ({ db with instances := db.instances.map (appendUpd iid fd) }, none) := by
    simp only [append_frame_to_instance, h, if_true]
  refine ⟨by rw [hred], by rw [hred, hred0], ?_, ?_⟩
  · rw [hred, List.map_map]
    apply List.map_congr_left
    intro a ha
    unfold appendUpd
    by_cases hb : a.instance_id = iid
    · simp [hb]
    · simp [hb]
  · rw [hred, List.map_map]
    apply List.map_congr_left
    intro a ha
    unfold appendUpd
    by_cases hb : a.instance_id = iid
    · simp [hb]
    · simp [hb]

/-- Witness for C10: instance 1 carries label "person"; a record is
appended under id 1 with the mismatched label "kicking", and it is
silently accepted. -/
theorem append_label_never_checked_witness :
    (append_frame_to_instance ⟨[⟨1, "person", [⟨0, [], [], []⟩]⟩], 1⟩ 1
        ⟨1, [], [], []⟩ (some "kicking")).2 = none ∧
    append_frame_to_instance ⟨[⟨1, "person", [⟨0, [], [], []⟩]⟩], 1⟩ 1
        ⟨1, [], [], []⟩ (some "kicking") =
      append_frame_to_instance ⟨[⟨1, "person", [⟨0, [], [], []⟩]⟩], 1⟩ 1
        ⟨1, [], [], []⟩ none ∧
    (append_frame_to_instance ⟨[⟨1, "person", [⟨0, [], [], []⟩]⟩], 1⟩ 1
        ⟨1, [], [], []⟩ (some "kicking")).1.instances.map
        (fun i => (i.instance_id, i.instance_of)) =
      [(⟨1, "person", [⟨0, [], [], []⟩]⟩ : TrInstance)].map
        (fun i => (i.instance_id, i.instance_of)) ∧
    (append_frame_to_instance ⟨[⟨1, "person", [⟨0, [], [], []⟩]⟩], 1⟩ 1
        ⟨1, [], [], []⟩ (some "kicking")).1.instances.map
        TrInstance.frames =
      [(⟨1, "person", [⟨0, [], [], []⟩]⟩ : TrInstance)].map
        (fun i => if i.instance_id == 1 then i.frames ++ [⟨1, [], [], []⟩]
          else i.frames) :=
  append_label_never_checked ⟨[⟨1, "person", [⟨0, [], [], []⟩]⟩], 1⟩ 1
    ⟨1, [], [], []⟩ (some "kicking") (by decide)

/-! ## Claim C6: tube bounds are tight -/

/-- Folding the running minimum from a concrete start value yields a value
at most the start, attained by the start or a list element, below every
list element. -/
theorem foldl_updMin_some : ∀ (l : List Int) (m : Int),
    ∃ r, l.foldl updMin (some m) = some r ∧ (r = m ∨ r ∈ l) ∧ r ≤ m ∧
      ∀ v ∈ l, r ≤ v := by
  intro l
  induction l with
  | nil => intro m; exact ⟨m, rfl, Or.inl rfl, le_refl m, by simp⟩
  | cons x xs ih =>
      intro m
      rw [List.foldl_cons]
      by_cases hc : x < m
      · have : updMin (some m) x = some x := by simp [updMin, hc]
        rw [this]
        obtain ⟨r, h1, h2, h3, h4⟩ := ih x
        refine ⟨r, h1, ?_, by omega, ?_⟩
        · rcases h2 with rfl | h2
          · exact Or.inr (List.mem_cons_self _ _)
          · exact Or.inr (List.mem_cons_of_mem _ h2)
        · intro v hv
          rcases List.mem_cons.mp hv with rfl | hv
          · exact h3
          · exact h4 v hv
      · have : updMin (some m) x = some m := by simp [updMin, hc]
        rw [this]
        obtain ⟨r, h1, h2, h3, h4⟩ := ih m
        refine ⟨r, h1, ?_, h3, ?_⟩
        · rcases h2 with rfl | h2
          · exact Or.inl rfl
          · exact Or.inr (List.mem_cons_of_mem _ h2)
        · intro v hv
          rcases List.mem_cons.mp hv with rfl | hv
          · omega
          · exact h4 v hv

/-- Folding the running minimum from infinity over a nonempty list yields
exactly the least element. -/
theorem foldl_updMin_none (l : List Int) (h : l ≠ []) :
    ∃ r, l.foldl updMin none = some r ∧ r ∈ l ∧ ∀ v ∈ l, r ≤ v := by
  cases l with
  | nil => exact absurd rfl h
  | cons x xs =>
      rw [List.foldl_cons]
      have : updMin none x = some x := rfl
      rw [this]
      obtain ⟨r, h1, h2, h3, h4⟩ := foldl_updMin_some xs x
      refine ⟨r, h1, ?_, ?_⟩
      · rcases h2 with rfl | h2
        · exact List.mem_cons_self _ _
        · exact List.mem_cons_of_mem _ h2
      · intro v hv
        rcases List.mem_cons.mp hv with rfl | hv
        · exact h3
        · exact h4 v hv

/-- Folding the running maximum yields a value at least the start,
attained by the start or a list element, above every list element. -/
theorem foldl_updMax_spec : ∀ (l : List Int) (m : Int),
    (l.foldl updMax m = m ∨ l.foldl updMax m ∈ l) ∧ m ≤ l.foldl updMax m ∧
      ∀ v ∈ l, v ≤ l.foldl updMax m := by
  intro l
  induction l with
  | nil => intro m; exact ⟨Or.inl rfl, le_refl m, by simp⟩
  | cons x xs ih =>
      intro m
      rw [List.foldl_cons]
      by_cases hc : x > m
      · have : updMax m x = x := by simp [updMax, hc]
        rw [this]
        obtain ⟨h1, h2, h3⟩ := ih x
        refine ⟨?_, by omega, ?_⟩
        · rcases h1 with h1 | h1
          · right
            rw [h1]
            exact List.mem_cons_self _ _
          · exact Or.inr (List.mem_cons_of_mem _ h1)
        · intro v hv
          rcases List.mem_cons.mp hv with rfl | hv
          · exact h2
          · exact h3 v hv
      · have : updMax m x = m := by simp [updMax, hc]
        rw [this]
        obtain ⟨h1, h2, h3⟩ := ih m
        refine ⟨?_, h2, ?_⟩
        · rcases h1 with h1 | h1
          · exact Or.inl h1
          · exact Or.inr (List.mem_cons_of_mem _ h1)
        · intro v hv
          rcases List.mem_cons.mp hv with rfl | hv
          · omega
          · exact h3 v hv

/-- The corner fold never touches the temporal bounds. -/
theorem point_fold_min_frame : ∀ (ps : List (Int × Int)) (t : Tube),
    (ps.foldl tubeStepPoint t).min_frame = t.min_frame := by
  intro ps
  induction ps with
  | nil => intro t; rfl
  | cons p ps ih => intro t; rw [List.foldl_cons, ih]; rfl

/-- The corner fold never touches the temporal bounds. -/
theorem point_fold_max_frame : ∀ (ps : List (Int × Int)) (t : Tube),
    (ps.foldl tubeStepPoint t).max_frame = t.max_frame := by
  intro ps
  induction ps with
  | nil => intro t; rfl
  | cons p ps ih => intro t; rw [List.foldl_cons, ih]; rfl

/-- The corner fold threads `min_x` through the running minimum of the
x coordinates. -/
theorem point_fold_min_x : ∀ (ps : List (Int × Int)) (t : Tube),
    (ps.foldl tubeStepPoint t).min_x = (ps.map Prod.fst).foldl updMin t.min_x := by
  intro ps
  induction ps with
  | nil => intro t; rfl
  | cons p ps ih =>
      intro t
      rw [List.foldl_cons, ih, List.map_cons, List.foldl_cons]
      rfl

/-- The corner fold threads `min_y` through the running minimum of the
y coordinates. -/
theorem point_fold_min_y : ∀ (ps : List (Int × Int)) (t : Tube),
    (ps.foldl tubeStepPoint t).min_y = (ps.map Prod.snd).foldl updMin t.min_y := by
  intro ps
  induction ps with
  | nil => intro t; rfl
  | cons p ps ih =>
      intro t
      rw [List.foldl_cons, ih, List.map_cons, List.foldl_cons]
      rfl

/-- The corner fold threads `max_x` through the running maximum of the
x coordinates. -/
theorem point_fold_max_x : ∀ (ps : List (Int × Int)) (t : Tube),
    (ps.foldl tubeStepPoint t).max_x = (ps.map Prod.fst).foldl updMax t.max_x := by
  intro ps
  induction ps with
  | nil => intro t; rfl
  | cons p ps ih =>
      intro t
      rw [List.foldl_cons, ih, List.map_cons, List.foldl_cons]
      rfl

/-- The corner fold threads `max_y` through the running maximum of the
y coordinates. -/
theorem point_fold_max_y : ∀ (ps : List (Int × Int)) (t : Tube),
    (ps.foldl tubeStepPoint t).max_y = (ps.map Prod.snd).foldl updMax t.max_y := by
  intro ps
  induction ps with
  | nil => intro t; rfl
  | cons p ps ih =>
      intro t
      rw [List.foldl_cons, ih, List.map_cons, List.foldl_cons]
      rfl

/-- The frame fold threads `min_frame` through the running minimum of the
frame numbers. -/
theorem frame_fold_min_frame : ∀ (frs : List InstanceFrameData) (t : Tube),
    (frs.foldl tubeStepFrame t).min_frame =
      (frs.map InstanceFrameData.frame_nr).foldl updMin t.min_frame := by
  intro frs
  induction frs with
  | nil => intro t; rfl
  | cons fr frs ih =>
      intro t
      rw [List.foldl_cons, ih, List.map_cons, List.foldl_cons]
      rw [tubeStepFrame, point_fold_min_frame]

/-- The frame fold threads `max_frame` through the running maximum of the
frame numbers. -/
theorem frame_fold_max_frame : ∀ (frs : List InstanceFrameData) (t : Tube),
    (frs.foldl tubeStepFrame t).max_frame =
      (frs.map InstanceFrameData.frame_nr).foldl updMax t.max_frame := by
  intro frs
  induction frs with
  | nil => intro t; rfl
  | cons fr frs ih =>
      intro t
      rw [List.foldl_cons, ih, List.map_cons, List.foldl_cons]
      rw [tubeStepFrame, point_fold_max_frame]

/-- The frame fold threads `min_x` through the running minimum of all
corner x coordinates. -/
theorem frame_fold_min_x : ∀ (frs : List InstanceFrameData) (t : Tube),
    (frs.foldl tubeStepFrame t).min_x =
      (frs.flatMap (fun fr => fr.segm_bbox.map Prod.fst)).foldl updMin t.min_x := by
  intro frs
  induction frs with
  | nil => intro t; rfl
  | cons fr frs ih =>
      intro t
      rw [List.foldl_cons, ih, List.flatMap_cons, List.foldl_append]
      rw [tubeStepFrame, point_fold_min_x]

/-- The frame fold threads `min_y` through the running minimum of all
corner y coordinates. -/
theorem frame_fold_min_y : ∀ (frs : List InstanceFrameData) (t : Tube),
    (frs.foldl tubeStepFrame t).min_y =
      (frs.flatMap (fun fr => fr.segm_bbox.map Prod.snd)).foldl updMin t.min_y := by
  intro frs
  induction frs with
  | nil => intro t; rfl
  | cons fr frs ih =>
      intro t
      rw [List.foldl_cons, ih, List.flatMap_cons, List.foldl_append]
      rw [tubeStepFrame, point_fold_min_y]

/-- The frame fold threads `max_x` through the running maximum of all
corner x coordinates. -/
theorem frame_fold_max_x : ∀ (frs : List InstanceFrameData) (t : Tube),
    (frs.foldl tubeStepFrame t).max_x =
      (frs.flatMap (fun fr => fr.segm_bbox.map Prod.fst)).foldl updMax t.max_x := by
  intro frs
  induction frs with
  | nil => intro t; rfl
  | cons fr frs ih =>
      intro t
      rw [List.foldl_cons, ih, List.flatMap_cons, List.foldl_append]
      rw [tubeStepFrame, point_fold_max_x]

/-- The frame fold threads `max_y` through the running maximum of all
corner y coordinates. -/
theorem frame_fold_max_y : ∀ (frs : List InstanceFrameData) (t : Tube),
    (frs.foldl tubeStepFrame t).max_y =
      (frs.flatMap (fun fr => fr.segm_bbox.map Prod.snd)).foldl updMax t.max_y := by
  intro frs
  induction frs with
  | nil => intro t; rfl
  | cons fr frs ih =>
      intro t
      rw [List.foldl_cons, ih, List.flatMap_cons, List.foldl_append]
      rw [tubeStepFrame, point_fold_max_y]

/-- C6: for an instance with at least one frame (each with at least one
bounding-box corner) and the program's non-negative frame numbers and
coordinates, the tube built by `create_from_instance` carries the exact
minimum and maximum frame number, and its spatial bounds are exactly the
least and greatest corner coordinates — every bound is attained.  The
construction depends only on the instance's frames, label and id. -/
theorem tube_bounds_tight (inst : TrInstance)
    (hne : inst.frames ≠ [])
    (hbb : ∀ fr ∈ inst.frames, fr.segm_bbox ≠ [])
    (hfnn : ∀ n ∈ frameNrs inst, 0 ≤ n)
    (hxnn : ∀ v ∈ cornerXs inst, 0 ≤ v)
    (hynn : ∀ v ∈ cornerYs inst, 0 ≤ v) :
    (createFromInstance inst).label = inst.instance_of ∧
    (createFromInstance inst).tube_id = inst.instance_id ∧
    (∃ a, (createFromInstance inst).min_frame = some a ∧ a ∈ frameNrs inst ∧
      ∀ v ∈ frameNrs inst, a ≤ v) ∧
    ((createFromInstance inst).max_frame ∈ frameNrs inst ∧
      ∀ v ∈ frameNrs inst, v ≤ (createFromInstance inst).max_frame) ∧
    (∃ a, (createFromInstance inst).min_x = some a ∧ a ∈ cornerXs inst ∧
      ∀ v ∈ cornerXs inst, a ≤ v) ∧
    (∃ a, (createFromInstance inst).min_y = some a ∧ a ∈ cornerYs inst ∧
      ∀ v ∈ cornerYs inst, a ≤ v) ∧
    ((createFromInstance inst).max_x ∈ cornerXs inst ∧
      ∀ v ∈ cornerXs inst, v ≤ (createFromInstance inst).max_x) ∧
    ((createFromInstance inst).max_y ∈ cornerYs inst ∧
      ∀ v ∈ cornerYs inst, v ≤ (createFromInstance inst).max_y) ∧
    (∀ inst2 : TrInstance, inst2.frames = inst.frames →
      inst2.instance_of = inst.instance_of →
      inst2.instance_id = inst.instance_id →
      createFromInstance inst2 = createFromInstance inst) := by
  have hfne : frameNrs inst ≠ [] := by
    simp only [frameNrs, ne_eq, List.map_eq_nil_iff]
    exact hne
  obtain ⟨fr0, hfr0⟩ := List.exists_mem_of_ne_nil _ hne
  obtain ⟨p0, hp0⟩ := List.exists_mem_of_ne_nil _ (hbb fr0 hfr0)
  have hxmem : p0.1 ∈ cornerXs inst := by
    simp only [cornerXs, List.mem_flatMap]
    exact ⟨fr0, hfr0, List.mem_map_of_mem _ hp0⟩
  have hymem : p0.2 ∈ cornerYs inst := by
    simp only [cornerYs, List.mem_flatMap]
    exact ⟨fr0, hfr0, List.mem_map_of_mem _ hp0⟩
  have hxne : cornerXs inst ≠ [] := List.ne_nil_of_mem hxmem
  have hyne : cornerYs inst ≠ [] := List.ne_nil_of_mem hymem
  refine ⟨rfl, rfl, ?_, ?_, ?_, ?_, ?_, ?_, ?_⟩
  · have hp : (createFromInstance inst).min_frame =
        (frameNrs inst).foldl updMin none := by
      show (inst.frames.foldl tubeStepFrame
        ⟨"", 0, none, none, 0, 0, none, 0⟩).min_frame = _
      rw [frame_fold_min_frame]
      rfl
    rw [hp]
    exact foldl_updMin_none _ hfne
  · have hp : (createFromInstance inst).max_frame =
        (frameNrs inst).foldl updMax 0 := by
      show (inst.frames.foldl tubeStepFrame
        ⟨"", 0, none, none, 0, 0, none, 0⟩).max_frame = _
      rw [frame_fold_max_frame]
      rfl
    rw [hp]
    obtain ⟨ha, -, hc⟩ := foldl_updMax_spec (frameNrs inst) 0
    rcases ha with ha | ha
    · obtain ⟨n, hn⟩ := List.exists_mem_of_ne_nil _ hfne
      have h1 := hc n hn
      have h2 := hfnn n hn
      have h3 : n = (frameNrs inst).foldl updMax 0 := by omega
      exact ⟨h3 ▸ hn, hc⟩
    · exact ⟨ha, hc⟩
  · have hp : (createFromInstance inst).min_x =
        (cornerXs inst).foldl updMin none := by
      show (inst.frames.foldl tubeStepFrame
        ⟨"", 0, none, none, 0, 0, none, 0⟩).min_x = _
      rw [frame_fold_min_x]
      rfl
    rw [hp]
    exact foldl_updMin_none _ hxne
  · have hp : (createFromInstance inst).min_y =
        (cornerYs inst).foldl updMin none := by
      show (inst.frames.foldl tubeStepFrame
        ⟨"", 0, none, none, 0, 0, none, 0⟩).min_y = _
      rw [frame_fold_min_y]
      rfl
    rw [hp]
    exact foldl_updMin_none _ hyne
  · have hp : (createFromInstance inst).max_x =
        (cornerXs inst).foldl updMax 0 := by
      show (inst.frames.foldl tubeStepFrame
        ⟨"", 0, none, none, 0, 0, none, 0⟩).max_x = _
      rw [frame_fold_max_x]
      rfl
    rw [hp]
    obtain ⟨ha, -, hc⟩ := foldl_updMax_spec (cornerXs inst) 0
    rcases ha with ha | ha
    · have h1 := hc p0.1 hxmem
      have h2 := hxnn p0.1 hxmem
      have h3 : p0.1 = (cornerXs inst).foldl updMax 0 := by omega
      exact ⟨h3 ▸ hxmem, hc⟩
    · exact ⟨ha, hc⟩
  · have hp : (createFromInstance inst).max_y =
        (cornerYs inst).foldl updMax 0 := by
      show (inst.frames.foldl tubeStepFrame
        ⟨"", 0, none, none, 0, 0, none, 0⟩).max_y = _
      rw [frame_fold_max_y]
      rfl
    rw [hp]
    obtain ⟨ha, -, hc⟩ := foldl_updMax_spec (cornerYs inst) 0
    rcases ha with ha | ha
    · have h1 := hc p0.2 hymem
      have h2 := hynn p0.2 hymem
      have h3 : p0.2 = (cornerYs inst).foldl updMax 0 := by omega
      exact ⟨h3 ▸ hymem, hc⟩
    · exact ⟨ha, hc⟩
  · intro i2 hf hl hi
    have : i2 = inst := by
      cases inst
      cases i2
      simp_all
    rw [this]

/-- Witness for C6: instance 7 ("kick") with two frames whose boxes span
x in [0, 5], y in [2, 9], frames 3 to 4. -/
theorem tube_bounds_tight_witness :
    (createFromInstance ⟨7, "kick",
        [⟨3, [], [(1, 2), (1, 6), (5, 6), (5, 2)], []⟩,
         ⟨4, [], [(0, 3), (0, 9), (2, 9), (2, 3)], []⟩]⟩).label = "kick" ∧
    (createFromInstance ⟨7, "kick",
        [⟨3, [], [(1, 2), (1, 6), (5, 6), (5, 2)], []⟩,
         ⟨4, [], [(0, 3), (0, 9), (2, 9), (2, 3)], []⟩]⟩).tube_id = 7 ∧
    (∃ a, (createFromInstance ⟨7, "kick",
        [⟨3, [], [(1, 2), (1, 6), (5, 6), (5, 2)], []⟩,
         ⟨4, [], [(0, 3), (0, 9), (2, 9), (2, 3)], []⟩]⟩).min_frame = some a ∧
      a ∈ frameNrs ⟨7, "kick",
        [⟨3, [], [(1, 2), (1, 6), (5, 6), (5, 2)], []⟩,
         ⟨4, [], [(0, 3), (0, 9), (2, 9), (2, 3)], []⟩]⟩ ∧
      ∀ v ∈ frameNrs ⟨7, "kick",
        [⟨3, [], [(1, 2), (1, 6), (5, 6), (5, 2)], []⟩,
         ⟨4, [], [(0, 3), (0, 9), (2, 9), (2, 3)], []⟩]⟩, a ≤ v) ∧
    ((createFromInstance ⟨7, "kick",
        [⟨3, [], [(1, 2), (1, 6), (5, 6), (5, 2)], []⟩,
         ⟨4, [], [(0, 3), (0, 9), (2, 9), (2, 3)], []⟩]⟩).max_frame ∈
      frameNrs ⟨7, "kick",
        [⟨3, [], [(1, 2), (1, 6), (5, 6), (5, 2)], []⟩,
         ⟨4, [], [(0, 3), (0, 9), (2, 9), (2, 3)], []⟩]⟩ ∧
      ∀ v ∈ frameNrs ⟨7, "kick",
        [⟨3, [], [(1, 2), (1, 6), (5, 6), (5, 2)], []⟩,
         ⟨4, [], [(0, 3), (0, 9), (2, 9), (2, 3)], []⟩]⟩,
        v ≤ (createFromInstance ⟨7, "kick",
          [⟨3, [], [(1, 2), (1, 6), (5, 6), (5, 2)], []⟩,
           ⟨4, [], [(0, 3), (0, 9), (2, 9), (2, 3)], []⟩]⟩).max_frame) ∧
    (∃ a, (createFromInstance ⟨7, "kick",
        [⟨3, [], [(1, 2), (1, 6), (5, 6), (5, 2)], []⟩,
         ⟨4, [], [(0, 3), (0, 9), (2, 9), (2, 3)], []⟩]⟩).min_x = some a ∧
      a ∈ cornerXs ⟨7, "kick",
        [⟨3, [], [(1, 2), (1, 6), (5, 6), (5, 2)], []⟩,
         ⟨4, [], [(0, 3), (0, 9), (2, 9), (2, 3)], []⟩]⟩ ∧
      ∀ v ∈ cornerXs ⟨7, "kick",
        [⟨3, [], [(1, 2), (1, 6), (5, 6), (5, 2)], []⟩,
         ⟨4, [], [(0, 3), (0, 9), (2, 9), (2, 3)], []⟩]⟩, a ≤ v) ∧
    (∃ a, (createFromInstance ⟨7, "kick",
        [⟨3, [], [(1, 2), (1, 6), (5, 6), (5, 2)], []⟩,
         ⟨4, [], [(0, 3), (0, 9), (2, 9), (2, 3)], []⟩]⟩).min_y = some a ∧
      a ∈ cornerYs ⟨7, "kick",
        [⟨3, [], [(1, 2), (1, 6), (5, 6), (5, 2)], []⟩,
         ⟨4, [], [(0, 3), (0, 9), (2, 9), (2, 3)], []⟩]⟩ ∧
      ∀ v ∈ cornerYs ⟨7, "kick",
        [⟨3, [], [(1, 2), (1, 6), (5, 6), (5, 2)], []⟩,
         ⟨4, [], [(0, 3), (0, 9), (2, 9), (2, 3)], []⟩]⟩, a ≤ v) ∧
    ((createFromInstance ⟨7, "kick",
        [⟨3, [], [(1, 2), (1, 6), (5, 6), (5, 2)], []⟩,
         ⟨4, [], [(0, 3), (0, 9), (2, 9), (2, 3)], []⟩]⟩).max_x ∈
      cornerXs ⟨7, "kick",
        [⟨3, [], [(1, 2), (1, 6), (5, 6), (5, 2)], []⟩,
         ⟨4, [], [(0, 3), (0, 9), (2, 9), (2, 3)], []⟩]⟩ ∧
      ∀ v ∈ cornerXs ⟨7, "kick",
        [⟨3, [], [(1, 2), (1, 6), (5, 6), (5, 2)], []⟩,
         ⟨4, [], [(0, 3), (0, 9), (2, 9), (2, 3)], []⟩]⟩,
        v ≤ (createFromInstance ⟨7, "kick",
          [⟨3, [], [(1, 2), (1, 6), (5, 6), (5, 2)], []⟩,
           ⟨4, [], [(0, 3), (0, 9), (2, 9), (2, 3)], []⟩]⟩).max_x) ∧
    ((createFromInstance ⟨7, "kick",
        [⟨3, [], [(1, 2), (1, 6), (5, 6), (5, 2)], []⟩,
         ⟨4, [], [(0, 3), (0, 9), (2, 9), (2, 3)], []⟩]⟩).max_y ∈
      cornerYs ⟨7, "kick",
        [⟨3, [], [(1, 2), (1, 6), (5, 6), (5, 2)], []⟩,
         ⟨4, [], [(0, 3), (0, 9), (2, 9), (2, 3)], []⟩]⟩ ∧
      ∀ v ∈ cornerYs ⟨7, "kick",
        [⟨3, [], [(1, 2), (1, 6), (5, 6), (5, 2)], []⟩,
         ⟨4, [], [(0, 3), (0, 9), (2, 9), (2, 3)], []⟩]⟩,
        v ≤ (createFromInstance ⟨7, "kick",
          [⟨3, [], [(1, 2), (1, 6), (5, 6), (5, 2)], []⟩,
           ⟨4, [], [(0, 3), (0, 9), (2, 9), (2, 3)], []⟩]⟩).max_y) ∧
    (∀ inst2 : TrInstance, inst2.frames =
        [⟨3, [], [(1, 2), (1, 6), (5, 6), (5, 2)], []⟩,
         ⟨4, [], [(0, 3), (0, 9), (2, 9), (2, 3)], []⟩] →
      inst2.instance_of = "kick" → inst2.instance_id = 7 →
      createFromInstance inst2 = createFromInstance ⟨7, "kick",
        [⟨3, [], [(1, 2), (1, 6), (5, 6), (5, 2)], []⟩,
         ⟨4, [], [(0, 3), (0, 9), (2, 9), (2, 3)], []⟩]⟩) :=
  tube_bounds_tight ⟨7, "kick",
      [⟨3, [], [(1, 2), (1, 6), (5, 6), (5, 2)], []⟩,
       ⟨4, [], [(0, 3), (0, 9), (2, 9), (2, 3)], []⟩]⟩
    (by decide) (by decide) (by decide) (by decide) (by decide)

/-! ## Claim C3: no two detections of one frame share an instance id -/

/-- Every candidate returned for a label and frame is a live instance. -/
theorem mem_of_type_in_frame {db : InstanceDB} {lbl : String} {f : Int}
    {p : TrInstance} (h : p ∈ get_instances_of_type_in_frame db lbl f) :
    p ∈ db.instances := by
  simp only [get_instances_of_type_in_frame, List.mem_flatMap] at h
  obtain ⟨i, hi, hmem⟩ := h
  cases hl : (i.instance_of == lbl) with
  | false =>
      rw [hl] at hmem
      simp at hmem
  | true =>
      rw [hl] at hmem
      simp only [if_true] at hmem
      obtain ⟨fr, -, rfl⟩ := List.mem_map.mp hmem
      exact hi

/-- Inversion for the fallible map: every produced pair comes from some
input instance. -/
theorem mapE_ok_mem {g : TrInstance → Except PyErr (Nat × Nat)} :
    ∀ {l : List TrInstance} {r : List (Nat × Nat)},
      mapE g l = .ok r → ∀ y ∈ r, ∃ x ∈ l, g x = .ok y := by
  intro l
  induction l with
  | nil =>
      intro r h y hy
      rw [mapE] at h
      cases h
      cases hy
  | cons x xs ih =>
      intro r h y hy
      rw [mapE] at h
      cases hg : g x with
      | error e => rw [hg] at h; cases h
      | ok z =>
          rw [hg] at h
          cases hm : mapE g xs with
          | error e => rw [hm] at h; cases h
          | ok zs =>
              rw [hm] at h
              cases h
              rcases List.mem_cons.mp hy with rfl | hy
              · exact ⟨x, List.mem_cons_self _ _, hg⟩
              · obtain ⟨w, hw, hgw⟩ := ih hm y hy
                exact ⟨w, List.mem_cons_of_mem _ hw, hgw⟩

/-- A successful score pairs the candidate's own id with its score. -/
theorem scorePrev_ok_id {f : Int} {mask : List Nat} {p : TrInstance}
    {y : Nat × Nat} (h : scorePrev f mask p = .ok y) :
    y.1 = p.instance_id := by
  rw [scorePrev] at h
  cases hg : get_frame_with_nr p (f - 1) with
  | error e => rw [hg] at h; cases h
  | ok fr =>
      rw [hg] at h
      cases h
      rfl

/-- With a label supplied, `append_frame_to_instance` never raises. -/
theorem append_some_label_no_error (db : InstanceDB) (iid : Nat)
    (fd : InstanceFrameData) (lbl : String) :
    (append_frame_to_instance db iid fd (some lbl)).2 = none := by
  unfold append_frame_to_instance
  cases db.instances.any (fun inst => inst.instance_id == iid) <;> simp

/-- Allocating a fresh id and appending under it creates a new
single-frame instance at the end of the store. -/
theorem commit_fresh_shape {db : InstanceDB} {fd : InstanceFrameData}
    {lbl : String}
    (hcnt : ∀ i ∈ db.instances, i.instance_id ≤ db.instanceid_cnt) :
    append_frame_to_instance { db with instanceid_cnt := db.instanceid_cnt + 1 }
        (db.instanceid_cnt + 1) fd (some lbl) =
      ({ instances := db.instances ++ [⟨db.instanceid_cnt + 1, lbl, [fd]⟩],
         instanceid_cnt := db.instanceid_cnt + 1 }, none) := by
  have hnm : (db.instanceid_cnt + 1) ∉
      instIds { db with instanceid_cnt := db.instanceid_cnt + 1 } := by
    intro hc
    simp only [instIds, List.mem_map] at hc
    obtain ⟨j, hj, hid⟩ := hc
    have := hcnt j hj
    omega
  exact (append_not_found hnm).1 lbl

/-- A successful commit either created a fresh instance under a brand-new
id, or appended to a live instance whose id was not yet used in the
current frame. -/
theorem commit_ok_cases {db db' : InstanceDB} {f : Int} {d : Detection}
    (hcnt : ∀ i ∈ db.instances, i.instance_id ≤ db.instanceid_cnt)
    (h : commitDetection db f d = .ok db') :
    (db' = (⟨db.instances ++
        [⟨db.instanceid_cnt + 1, d.label, [⟨f, d.mask, d.bbox, d.rbox⟩]⟩],
        db.instanceid_cnt + 1⟩ : InstanceDB)) ∨
    (∃ iid, iid ∈ instIds db ∧ iid ∉ get_instance_ids_in_frame db f ∧
      db' = (append_frame_to_instance db iid ⟨f, d.mask, d.bbox, d.rbox⟩
        (some d.label)).1 ∧
      db'.instanceid_cnt = db.instanceid_cnt) := by
  simp only [commitDetection, get_unused_instance_id] at h
  cases hprev : get_instances_of_type_in_frame db d.label (f - 1) with
  | nil =>
      rw [hprev] at h
      simp only [commit_fresh_shape hcnt] at h
      left
      injection h with h2
      exact h2.symm
  | cons p ps =>
      rw [hprev] at h
      simp only at h
      cases hm : mapE (scorePrev f d.mask) (p :: ps) with
      | error e => rw [hm] at h; cases h
      | ok ious =>
          rw [hm] at h
          simp only at h
          cases hsort : sortDesc ious with
          | nil => rw [hsort] at h; cases h
          | cons best rest =>
              rw [hsort] at h
              simp only at h
              by_cases hcond : (decide (best.2 > 0) &&
                  !((get_instance_ids_in_frame db f).contains best.1)) = true
              · rw [if_pos hcond] at h
                simp only at h
                right
                have hbest_mem : best ∈ ious := by
                  apply mem_sortDesc.mp
                  rw [hsort]
                  exact List.mem_cons_self _ _
                obtain ⟨x, hx, hgx⟩ := mapE_ok_mem hm best hbest_mem
                have hxprev : x ∈ get_instances_of_type_in_frame db d.label (f - 1) := by
                  rw [hprev]
                  exact hx
                have hxin : x ∈ db.instances := mem_of_type_in_frame hxprev
                have hid : best.1 = x.instance_id := scorePrev_ok_id hgx
                have hmem : best.1 ∈ instIds db := by
                  rw [hid]
                  exact List.mem_map_of_mem _ hxin
                have hnotin : best.1 ∉ get_instance_ids_in_frame db f := by
                  rw [Bool.and_eq_true] at hcond
                  have hb := hcond.2
                  intro hc
                  rw [contains_iff_mem_nat.mpr hc] at hb
                  cases hb
                refine ⟨best.1, hmem, hnotin, ?_, ?_⟩
                · rw [append_some_label_no_error] at h
                  simp only at h
                  injection h with h2
                  exact h2.symm
                · rw [append_some_label_no_error] at h
                  simp only at h
                  injection h with h2
                  rw [← h2, append_frame_cnt]
              · rw [if_neg hcond] at h
                simp only [commit_fresh_shape hcnt] at h
                left
                injection h with h2
                exact h2.symm

/-- One successful commit preserves the store invariants — ids bounded by
the counter, pairwise-distinct ids — and keeps the current frame's id
list duplicate-free. -/
theorem commit_preserves_inv {db db' : InstanceDB} {f : Int} {d : Detection}
    (hcnt : ∀ i ∈ db.instances, i.instance_id ≤ db.instanceid_cnt)
    (hids : (instIds db).Nodup)
    (hfr : (get_instance_ids_in_frame db f).Nodup)
    (h : commitDetection db f d = .ok db') :
    (∀ i ∈ db'.instances, i.instance_id ≤ db'.instanceid_cnt) ∧
    (instIds db').Nodup ∧
    (get_instance_ids_in_frame db' f).Nodup := by
  rcases commit_ok_cases hcnt h with hfresh | ⟨iid, hmem, hnotin, hdb, hcnt'⟩
  · have hsplit : get_instance_ids_in_frame db' f =
        get_instance_ids_in_frame db f ++ [db.instanceid_cnt + 1] := by
      rw [hfresh]
      simp only [get_instance_ids_in_frame]
      rw [List.flatMap_append]
      congr 1
      simp [idContrib]
    have hidsplit : instIds db' = instIds db ++ [db.instanceid_cnt + 1] := by
      rw [hfresh]
      simp only [instIds]
      rw [List.map_append]
      rfl
    refine ⟨?_, ?_, ?_⟩
    · intro i hi
      rw [hfresh] at hi ⊢
      rcases List.mem_append.mp hi with hi | hi
      · have := hcnt i hi
        show i.instance_id ≤ db.instanceid_cnt + 1
        omega
      · rw [List.mem_singleton] at hi
        rw [hi]
    · rw [hidsplit, List.nodup_append]
      refine ⟨hids, List.nodup_singleton _, ?_⟩
      intro a ha hb
      rw [List.mem_singleton] at hb
      obtain ⟨j, hj, hid⟩ := List.mem_map.mp ha
      have := hcnt j hj
      omega
    · rw [hsplit, List.nodup_append]
      refine ⟨hfr, List.nodup_singleton _, ?_⟩
      intro a ha hb
      rw [List.mem_singleton] at hb
      obtain ⟨j, hj, hid⟩ := List.mem_map.mp (ids_in_frame_sub_instIds ha)
      have := hcnt j hj
      omega
  · obtain ⟨l1, i, l2, heq, hid, h1, h2, happ⟩ :=
      append_found (some d.label) hids hmem
    rw [happ] at hdb
    simp only at hdb
    have hinst' : db'.instances =
        l1 ++ { i with frames := i.frames ++
          [⟨f, d.mask, d.bbox, d.rbox⟩] } :: l2 := by
      rw [hdb]
    have hold : get_instance_ids_in_frame db f =
        l1.flatMap (idContrib f) ++ (idContrib f i ++ l2.flatMap (idContrib f)) := by
      show db.instances.flatMap (idContrib f) = _
      rw [heq, List.flatMap_append, List.flatMap_cons]
    have hCnil : idContrib f i = [] := by
      rw [List.eq_nil_iff_forall_not_mem]
      intro a ha
      obtain ⟨ha1, ha2⟩ := mem_idContrib.mp ha
      apply hnotin
      apply mem_ids_in_frame.mpr
      refine ⟨i, ?_, ?_, ha2⟩
      · rw [heq]
        exact List.mem_append_right _ (List.mem_cons_self _ _)
      · omega
    have hcsplit : idContrib f
        { i with frames := i.frames ++ [⟨f, d.mask, d.bbox, d.rbox⟩] } =
        idContrib f i ++ [i.instance_id] := by
      simp [idContrib, List.filter_append]
    have hnew : get_instance_ids_in_frame db' f =
        l1.flatMap (idContrib f) ++ (iid :: l2.flatMap (idContrib f)) := by
      show db'.instances.flatMap (idContrib f) = _
      rw [hinst', List.flatMap_append, List.flatMap_cons, hcsplit, hCnil]
      rw [hid]
      rfl
    have holdAB : get_instance_ids_in_frame db f =
        l1.flatMap (idContrib f) ++ l2.flatMap (idContrib f) := by
      rw [hold, hCnil]
      rfl
    have hidseq : instIds db' = instIds db := by
      show db'.instances.map TrInstance.instance_id =
        db.instances.map TrInstance.instance_id
      rw [hinst', heq]
      simp only [List.map_append, List.map_cons]
    refine ⟨?_, ?_, ?_⟩
    · intro j hj
      rw [hcnt']
      have : j.instance_id ∈ instIds db := by
        rw [← hidseq]
        exact List.mem_map_of_mem _ hj
      obtain ⟨k, hk, hkid⟩ := List.mem_map.mp this
      rw [← hkid]
      exact hcnt k hk
    · rw [hidseq]
      exact hids
    · rw [hnew]
      rw [List.nodup_middle]
      rw [List.nodup_cons]
      constructor
      · rw [← holdAB]
        exact hnotin
      · rw [← holdAB]
        exact hfr

/-- Processing a detection list keeps the current frame's id list
duplicate-free, by induction over the commits. -/
theorem process_preserves_nodup {f : Int} :
    ∀ (ds : List Detection) (db db' : InstanceDB),
      (∀ i ∈ db.instances, i.instance_id ≤ db.instanceid_cnt) →
      (instIds db).Nodup →
      (get_instance_ids_in_frame db f).Nodup →
      processFrameDetections db f ds = .ok db' →
      (get_instance_ids_in_frame db' f).Nodup := by
  intro ds
  induction ds with
  | nil =>
      intro db db' h1 h2 h3 h
      rw [processFrameDetections] at h
      cases h
      exact h3
  | cons d ds ih =>
      intro db db' h1 h2 h3 h
      rw [processFrameDetections] at h
      cases hc : commitDetection db f d with
      | error e => rw [hc] at h; cases h
      | ok db1 =>
          rw [hc] at h
          obtain ⟨g1, g2, g3⟩ := commit_preserves_inv h1 h2 h3 hc
          exact ih db1 db' g1 g2 g3 h

/-- C3: for every frame and every detection order within it, once the
tracker loop has committed all detections of the frame, no two of them
resolved to the same instance id: `get_instance_ids_in_frame` for that
frame is duplicate-free (a previous id is continued only when its score
is positive and the id is not already claimed in the frame; otherwise a
fresh id is allocated). -/
theorem no_duplicate_ids_per_frame (db : InstanceDB) (f : Int)
    (ds : List Detection) (db' : InstanceDB)
    (hcnt : ∀ i ∈ db.instances, i.instance_id ≤ db.instanceid_cnt)
    (hids : (instIds db).Nodup)
    (hfr : (get_instance_ids_in_frame db f).Nodup)
    (hrun : processFrameDetections db f ds = .ok db') :
    (get_instance_ids_in_frame db' f).Nodup :=
  process_preserves_nodup ds db db' hcnt hids hfr hrun

/-- Witness for C3: frame 1 with two identical "a" detections against a
store holding instance 1 from frame 0; the first detection continues id 1,
the second is forced onto the fresh id 2, and the frame's id list [1, 2]
has no duplicates. -/
theorem no_duplicate_ids_per_frame_witness :
    (get_instance_ids_in_frame
      ⟨[⟨1, "a", [⟨0, [255], [], []⟩, ⟨1, [255], [], []⟩]⟩,
        ⟨2, "a", [⟨1, [255], [], []⟩]⟩], 2⟩ 1).Nodup :=
  no_duplicate_ids_per_frame ⟨[⟨1, "a", [⟨0, [255], [], []⟩]⟩], 1⟩ 1
    [⟨"a", [255], [], []⟩, ⟨"a", [255], [], []⟩]
    ⟨[⟨1, "a", [⟨0, [255], [], []⟩, ⟨1, [255], [], []⟩]⟩,
      ⟨2, "a", [⟨1, [255], [], []⟩]⟩], 2⟩
    (by decide) (by decide) (by decide) rfl
